import Mathlib

/-!
Verification of the urmacro core: the smooth cursor-motion trajectory
generator (`smooth_move` in `src/urmacro/_input_api.py`), the interruptible
sleep primitive (`sleep_interruptible` in `src/urmacro/_utils.py`), and the
held-key/held-button input state (`press`/`release`/`release_all` and the
click helpers in `src/urmacro/_input_api.py`).

Modelling conventions:
* Python float arithmetic is idealized as real arithmetic (`ℝ`).
* Python `int(a)` (truncation toward zero) is `pyTrunc`; Python `round(a)`
  (banker's rounding, half to even) is `pyRound`.
* The wall clock (`time.perf_counter`) and the cancellation predicate of
  `sleep_interruptible` are modelled as streams: the k-th clock read returns
  `clock k`, the j-th predicate call returns `p j`.  Loops take explicit fuel
  and return `none` when the fuel runs out, so no partiality is needed.
* Injected OS input events (`SendInput`) are collected in ordered lists.
-/

namespace Urmacro

/-- Python `int()` applied to a real number: truncation toward zero. -/
noncomputable def pyTrunc (a : ℝ) : ℤ :=
  if 0 ≤ a then ⌊a⌋ else ⌈a⌉

/-- Python `round()` applied to a real number: round half to even. -/
noncomputable def pyRound (a : ℝ) : ℤ :=
  if Int.fract a < 1 / 2 then ⌊a⌋
  else if 1 / 2 < Int.fract a then ⌊a⌋ + 1
  else if ⌊a⌋ % 2 = 0 then ⌊a⌋ else ⌊a⌋ + 1

lemma pyTrunc_intCast (z : ℤ) : pyTrunc (z : ℝ) = z := by
  unfold pyTrunc
  split <;> simp

lemma pyRound_zero : pyRound (0 : ℝ) = 0 := by
  unfold pyRound
  norm_num

/-- Truncation toward zero differs from its argument by strictly less than one. -/
lemma abs_sub_pyTrunc_lt_one (a : ℝ) : |a - (pyTrunc a : ℝ)| < 1 := by
  unfold pyTrunc
  rcases le_or_lt 0 a with h | h
  · rw [if_pos h, abs_lt]
    constructor
    · have := Int.floor_le a
      linarith
    · have := Int.sub_one_lt_floor a
      linarith
  · rw [if_neg (not_le.mpr h), abs_lt]
    constructor
    · have := Int.ceil_lt_add_one a
      linarith
    · have := Int.le_ceil a
      linarith

/-- Sum of the first components of a list of integer delta events. -/
def sumX (l : List (ℤ × ℤ)) : ℤ := (l.map Prod.fst).sum

/-- Sum of the second components of a list of integer delta events. -/
def sumY (l : List (ℤ × ℤ)) : ℤ := (l.map Prod.snd).sum

@[simp] lemma sumX_nil : sumX [] = 0 := rfl

@[simp] lemma sumY_nil : sumY [] = 0 := rfl

@[simp] lemma sumX_append (l₁ l₂ : List (ℤ × ℤ)) :
    sumX (l₁ ++ l₂) = sumX l₁ + sumX l₂ := by
  simp [sumX]

@[simp] lemma sumY_append (l₁ l₂ : List (ℤ × ℤ)) :
    sumY (l₁ ++ l₂) = sumY l₁ + sumY l₂ := by
  simp [sumY]

@[simp] lemma sumX_singleton (p : ℤ × ℤ) : sumX [p] = p.1 := by simp [sumX]

@[simp] lemma sumY_singleton (p : ℤ × ℤ) : sumY [p] = p.2 := by simp [sumY]

/-- Loop state of the relative branch of `smooth_move`: the previously
evaluated curve point (`prev_bx`, `prev_by`), the fractional accumulator
(`acc_x`, `acc_y`), and the relative delta events injected so far. -/
structure RelState where
  prev_bx : ℝ
  prev_by : ℝ
  acc_x : ℝ
  acc_y : ℝ
  events : List (ℤ × ℤ)

/-- One iteration of the relative-mode sampling loop of `smooth_move`
(lines 260–275 of `_input_api.py`), for the curve point `b` of the current
sample: accumulate the fractional delta from the previous curve point,
inject the truncated integer part (skipping the event when both components
are zero), and carry the remainder forward. -/
noncomputable def relStep (s : RelState) (b : ℝ × ℝ) : RelState :=
  if pyTrunc (s.acc_x + (b.1 - s.prev_bx)) ≠ 0 ∨
      pyTrunc (s.acc_y + (b.2 - s.prev_by)) ≠ 0 then
    { prev_bx := b.1, prev_by := b.2,
      acc_x := s.acc_x + (b.1 - s.prev_bx)
        - (pyTrunc (s.acc_x + (b.1 - s.prev_bx)) : ℝ),
      acc_y := s.acc_y + (b.2 - s.prev_by)
        - (pyTrunc (s.acc_y + (b.2 - s.prev_by)) : ℝ),
      events := s.events ++
        [(pyTrunc (s.acc_x + (b.1 - s.prev_bx)),
          pyTrunc (s.acc_y + (b.2 - s.prev_by)))] }
  else
    { prev_bx := b.1, prev_by := b.2,
      acc_x := s.acc_x + (b.1 - s.prev_bx),
      acc_y := s.acc_y + (b.2 - s.prev_by),
      events := s.events }

/-- Run the relative-mode sampling loop over a list of curve points, from
the initial state `prev = (0,0)`, `acc = (0,0)`, no events. -/
noncomputable def relRun (bs : List (ℝ × ℝ)) : RelState :=
  bs.foldl relStep ⟨0, 0, 0, 0, []⟩

/-- The final flush after the relative-mode loop (lines 276–279 of
`_input_api.py`): inject the rounded remaining accumulator as one last
correction event, unless it rounds to zero in both axes. -/
noncomputable def relFlush (s : RelState) : List (ℤ × ℤ) :=
  if pyRound s.acc_x ≠ 0 ∨ pyRound s.acc_y ≠ 0 then
    s.events ++ [(pyRound s.acc_x, pyRound s.acc_y)]
  else s.events

lemma relStep_prev_bx (s : RelState) (b : ℝ × ℝ) : (relStep s b).prev_bx = b.1 := by
  unfold relStep
  split <;> rfl

lemma relStep_prev_by (s : RelState) (b : ℝ × ℝ) : (relStep s b).prev_by = b.2 := by
  unfold relStep
  split <;> rfl

lemma relStep_acc_x (s : RelState) (b : ℝ × ℝ) :
    (relStep s b).acc_x = s.acc_x + (b.1 - s.prev_bx)
      - (pyTrunc (s.acc_x + (b.1 - s.prev_bx)) : ℝ) := by
  unfold relStep
  split
  · rfl
  · rename_i h
    push_neg at h
    simp [h.1]

lemma relStep_acc_y (s : RelState) (b : ℝ × ℝ) :
    (relStep s b).acc_y = s.acc_y + (b.2 - s.prev_by)
      - (pyTrunc (s.acc_y + (b.2 - s.prev_by)) : ℝ) := by
  unfold relStep
  split
  · rfl
  · rename_i h
    push_neg at h
    simp [h.2]

lemma relStep_sumX (s : RelState) (b : ℝ × ℝ) :
    sumX (relStep s b).events = sumX s.events + pyTrunc (s.acc_x + (b.1 - s.prev_bx)) := by
  unfold relStep
  split
  · simp
  · rename_i h
    push_neg at h
    simp [h.1]

lemma relStep_sumY (s : RelState) (b : ℝ × ℝ) :
    sumY (relStep s b).events = sumY s.events + pyTrunc (s.acc_y + (b.2 - s.prev_by)) := by
  unfold relStep
  split
  · simp
  · rename_i h
    push_neg at h
    simp [h.2]

/-- After every injection step the accumulator is strictly below one in
absolute value, in each axis. -/
lemma relStep_abs_acc (s : RelState) (b : ℝ × ℝ) :
    |(relStep s b).acc_x| < 1 ∧ |(relStep s b).acc_y| < 1 := by
  rw [relStep_acc_x, relStep_acc_y]
  exact ⟨abs_sub_pyTrunc_lt_one _, abs_sub_pyTrunc_lt_one _⟩

/-- Loop invariant of the relative-mode sampling loop: the accumulator is
exactly the ideal (continuous) curve position minus the total integer delta
injected so far. -/
def RelInv (s : RelState) : Prop :=
  s.acc_x = s.prev_bx - (sumX s.events : ℝ) ∧
  s.acc_y = s.prev_by - (sumY s.events : ℝ)

lemma relStep_relInv (s : RelState) (b : ℝ × ℝ) (h : RelInv s) : RelInv (relStep s b) := by
  obtain ⟨hx, hy⟩ := h
  constructor
  · rw [relStep_acc_x, relStep_prev_bx, relStep_sumX]
    push_cast
    linarith
  · rw [relStep_acc_y, relStep_prev_by, relStep_sumY]
    push_cast
    linarith

lemma relInv_foldl (bs : List (ℝ × ℝ)) :
    ∀ s : RelState, RelInv s → RelInv (bs.foldl relStep s) := by
  induction bs with
  | nil => intro s hs; exact hs
  | cons b bs ih =>
    intro s hs
    exact ih _ (relStep_relInv s b hs)

lemma relRun_relInv (bs : List (ℝ × ℝ)) : RelInv (relRun bs) := by
  apply relInv_foldl
  constructor <;> simp

lemma relRun_append_singleton (l : List (ℝ × ℝ)) (b : ℝ × ℝ) :
    relRun (l ++ [b]) = relStep (relRun l) b := by
  simp [relRun, List.foldl_append]

lemma relFlush_of_acc_zero (s : RelState) (hx : s.acc_x = 0) (hy : s.acc_y = 0) :
    relFlush s = s.events := by
  unfold relFlush
  rw [hx, hy, pyRound_zero]
  simp

/-- Exactness after the final step and flush: if the last curve point is the
exact integer offset `(x, y)`, the injected deltas (including the flush)
sum to exactly `(x, y)`. -/
lemma relRun_flush_exact (l : List (ℝ × ℝ)) (x y : ℤ) :
    sumX (relFlush (relRun (l ++ [((x : ℝ), (y : ℝ))]))) = x ∧
    sumY (relFlush (relRun (l ++ [((x : ℝ), (y : ℝ))]))) = y := by
  rw [relRun_append_singleton]
  have hI := relRun_relInv l
  obtain ⟨hIx, hIy⟩ := hI
  set s := relRun l with hs
  have hax : s.acc_x + (((x : ℝ), (y : ℝ)).1 - s.prev_bx)
      = ((x - sumX s.events : ℤ) : ℝ) := by
    push_cast
    rw [hIx]
    ring
  have hay : s.acc_y + (((x : ℝ), (y : ℝ)).2 - s.prev_by)
      = ((y - sumY s.events : ℤ) : ℝ) := by
    push_cast
    rw [hIy]
    ring
  have haccx : (relStep s ((x : ℝ), (y : ℝ))).acc_x = 0 := by
    rw [relStep_acc_x, hax, pyTrunc_intCast, sub_self]
  have haccy : (relStep s ((x : ℝ), (y : ℝ))).acc_y = 0 := by
    rw [relStep_acc_y, hay, pyTrunc_intCast, sub_self]
  rw [relFlush_of_acc_zero _ haccx haccy]
  have hsx : sumX (relStep s ((x : ℝ), (y : ℝ))).events = x := by
    rw [relStep_sumX, hax, pyTrunc_intCast]
    ring
  have hsy : sumY (relStep s ((x : ℝ), (y : ℝ))).events = y := by
    rw [relStep_sumY, hay, pyTrunc_intCast]
    ring
  exact ⟨hsx, hsy⟩

/-- The raised-cosine easing of `smooth_move`: `eased = (1 - cos(t·π)) / 2`. -/
noncomputable def eased (t : ℝ) : ℝ := (1 - Real.cos (t * Real.pi)) / 2

/-- One coordinate of the relative-mode quadratic Bézier curve of
`smooth_move` with endpoints `0` and `target` and control point `mid`:
`2·(1-e)·e·mid + e²·target`. -/
noncomputable def bezierPoint (mid target e : ℝ) : ℝ :=
  2 * (1 - e) * e * mid + e * e * target

/-- The ideal (continuous) curve point of the `i`-th relative-mode sample of
`smooth_move`: parameter `t = i/steps`, eased, evaluated on the Bézier curve
from the origin to the offset `(x, y)` with control point `(x/2, y/2)`. -/
noncomputable def samplePoint (x y : ℤ) (steps i : ℕ) : ℝ × ℝ :=
  (bezierPoint ((x : ℝ) / 2) (x : ℝ) (eased ((i : ℝ) / (steps : ℝ))),
   bezierPoint ((y : ℝ) / 2) (y : ℝ) (eased ((i : ℝ) / (steps : ℝ))))

/-- The list of ideal curve points visited by the relative-mode sampling
loop of `smooth_move`, for `i = 1, …, steps`. -/
noncomputable def relSamples (x y : ℤ) (steps : ℕ) : List (ℝ × ℝ) :=
  (List.range steps).map (fun i => samplePoint x y steps (i + 1))

/-- The step count of `smooth_move`: `max(15, int(duration * 120))`
(line 255 of `_input_api.py`; Python `int` truncates toward zero). -/
noncomputable def stepsOf (duration : ℝ) : ℤ :=
  max 15 (pyTrunc (duration * 120))

/-- The step count of `smooth_move` as a natural number (it is always
at least 15, hence nonnegative). -/
noncomputable def stepsNat (duration : ℝ) : ℕ :=
  (stepsOf duration).toNat

lemma fifteen_le_stepsNat (duration : ℝ) : 15 ≤ stepsNat duration := by
  have h : (15 : ℤ) ≤ stepsOf duration := le_max_left _ _
  unfold stepsNat
  omega

@[simp] lemma relSamples_length (x y : ℤ) (steps : ℕ) :
    (relSamples x y steps).length = steps := by
  simp [relSamples]

lemma eased_one : eased 1 = 1 := by
  unfold eased
  rw [one_mul, Real.cos_pi]
  norm_num

lemma bezierPoint_one (mid target : ℝ) : bezierPoint mid target 1 = target := by
  unfold bezierPoint
  ring

lemma samplePoint_last (x y : ℤ) (steps : ℕ) (h : steps ≠ 0) :
    samplePoint x y steps steps = ((x : ℝ), (y : ℝ)) := by
  unfold samplePoint
  rw [div_self (by exact_mod_cast h), eased_one, bezierPoint_one, bezierPoint_one]

/-- A synthetic mouse input event: a relative delta (`send_input_delta`) or
an absolute move (`send_input_move`). -/
inductive MouseEvent where
  | delta (dx dy : ℤ)
  | absMove (x y : ℤ)
deriving Repr, DecidableEq

/-- Componentwise sum of all relative delta events in a list (absolute
moves contribute nothing). -/
def deltaSum (l : List MouseEvent) : ℤ × ℤ :=
  ((l.map (fun e => match e with | MouseEvent.delta a _ => a | _ => 0)).sum,
   (l.map (fun e => match e with | MouseEvent.delta _ b => b | _ => 0)).sum)

lemma deltaSum_map_delta (l : List (ℤ × ℤ)) :
    deltaSum (l.map (fun d => MouseEvent.delta d.1 d.2)) = (sumX l, sumY l) := by
  induction l with
  | nil => rfl
  | cons d l ih =>
    simp only [List.map_cons, deltaSum, sumX, sumY, List.sum_cons] at ih ⊢
    rw [Prod.ext_iff] at ih ⊢
    constructor <;> simp_all

/-- The target coordinate of `smooth_move` in one axis: the current position
plus the offset in relative mode, the argument itself in absolute mode. -/
def targetOf (start v : ℤ) (relative : Bool) : ℤ :=
  if relative = true then start + v else v

/-- The Euclidean distance from the start to the target of `smooth_move`,
computed from the integer displacement `(dxv, dyv)`. -/
noncomputable def distOf (dxv dyv : ℤ) : ℝ :=
  Real.sqrt ((dxv * dxv + dyv * dyv : ℤ) : ℝ)

/-- The absolute-mode Bézier control point, x coordinate: segment midpoint
displaced perpendicular to the motion by `deviation`
(line 252 of `_input_api.py`). -/
noncomputable def absMidX (start_x start_y x y : ℤ) (deviation : ℝ) : ℝ :=
  ((start_x + x : ℤ) : ℝ) / 2 +
    (-((y - start_y : ℤ) : ℝ) / distOf (x - start_x) (y - start_y)) * deviation

/-- The absolute-mode Bézier control point, y coordinate
(line 253 of `_input_api.py`). -/
noncomputable def absMidY (start_x start_y x y : ℤ) (deviation : ℝ) : ℝ :=
  ((start_y + y : ℤ) : ℝ) / 2 +
    (((x - start_x : ℤ) : ℝ) / distOf (x - start_x) (y - start_y)) * deviation

/-- The `i`-th absolute-mode sample of `smooth_move` (lines 281–290 of
`_input_api.py`): evaluate the full quadratic Bézier at the eased parameter,
truncate, and add the ±1 jitter on every sample except the last. The jitter
drawn by `random.randint(-1, 1)` is supplied as the function `jitter`. -/
noncomputable def absSample (start_x start_y target_x target_y : ℤ)
    (mid_bx mid_by : ℝ) (steps i : ℕ) (jitter : ℕ → ℤ × ℤ) : MouseEvent :=
  MouseEvent.absMove
    (pyTrunc ((1 - eased ((i : ℝ) / (steps : ℝ))) * (1 - eased ((i : ℝ) / (steps : ℝ))) * (start_x : ℝ)
        + 2 * (1 - eased ((i : ℝ) / (steps : ℝ))) * eased ((i : ℝ) / (steps : ℝ)) * mid_bx
        + eased ((i : ℝ) / (steps : ℝ)) * eased ((i : ℝ) / (steps : ℝ)) * (target_x : ℝ))
      + (if i < steps then (jitter i).1 else 0))
    (pyTrunc ((1 - eased ((i : ℝ) / (steps : ℝ))) * (1 - eased ((i : ℝ) / (steps : ℝ))) * (start_y : ℝ)
        + 2 * (1 - eased ((i : ℝ) / (steps : ℝ))) * eased ((i : ℝ) / (steps : ℝ)) * mid_by
        + eased ((i : ℝ) / (steps : ℝ)) * eased ((i : ℝ) / (steps : ℝ)) * (target_y : ℝ))
      + (if i < steps then (jitter i).2 else 0))

/-- Model of `smooth_move(x, y, duration, relative)` (lines 216–291 of
`_input_api.py`), returning the ordered list of injected mouse events.
`start_x`/`start_y` is the cursor position read by `GetCursorPos`;
`deviation` is the value drawn by `random.uniform(-0.15, 0.15) * dist`
in absolute mode (the code forces it to zero in relative mode); `jitter`
supplies the per-sample `random.randint(-1, 1)` pair of absolute mode. -/
noncomputable def smooth_move (start_x start_y x y : ℤ) (duration : ℝ)
    (relative : Bool) (deviation : ℝ) (jitter : ℕ → ℤ × ℤ) : List MouseEvent :=
  if distOf (targetOf start_x x relative - start_x)
      (targetOf start_y y relative - start_y) < 2 then
    if relative = true then
      [MouseEvent.delta (targetOf start_x x relative - start_x)
        (targetOf start_y y relative - start_y)]
    else
      [MouseEvent.absMove (targetOf start_x x relative) (targetOf start_y y relative)]
  else
    if relative = true then
      (relFlush (relRun (relSamples x y (stepsNat duration)))).map
        (fun d => MouseEvent.delta d.1 d.2)
    else
      (List.range (stepsNat duration)).map (fun i =>
        absSample start_x start_y (targetOf start_x x relative)
          (targetOf start_y y relative)
          (absMidX start_x start_y (targetOf start_x x relative)
            (targetOf start_y y relative) deviation)
          (absMidY start_x start_y (targetOf start_x x relative)
            (targetOf start_y y relative) deviation)
          (stepsNat duration) (i + 1) jitter)
        ++ [MouseEvent.absMove (targetOf start_x x relative) (targetOf start_y y relative)]

/-- Claim C1: for every integer offset `(ox, oy)` and every `duration > 0`,
relative-mode `smooth_move` injects relative delta events whose componentwise
sum is exactly `(ox, oy)`, the final rounded flush of the fractional
accumulator included. -/
theorem c1_relative_displacement_exact (start_x start_y ox oy : ℤ)
    (duration deviation : ℝ) (jitter : ℕ → ℤ × ℤ) (_hdur : 0 < duration) :
    deltaSum (smooth_move start_x start_y ox oy duration true deviation jitter)
      = (ox, oy) := by
  unfold smooth_move
  split
  · have h1 : targetOf start_x ox true - start_x = ox := by simp [targetOf]
    have h2 : targetOf start_y oy true - start_y = oy := by simp [targetOf]
    rw [if_pos rfl, h1, h2]
    simp [deltaSum]
  · rw [if_pos rfl]
    obtain ⟨m, hm⟩ : ∃ m, stepsNat duration = m + 1 :=
      ⟨stepsNat duration - 1, by have := fifteen_le_stepsNat duration; omega⟩
    rw [hm]
    have hdec : relSamples ox oy (m + 1) =
        (List.range m).map (fun i => samplePoint ox oy (m + 1) (i + 1)) ++
          [((ox : ℝ), (oy : ℝ))] := by
      unfold relSamples
      rw [List.range_succ, List.map_append]
      simp [samplePoint_last ox oy (m + 1) (Nat.succ_ne_zero m)]
    rw [hdec, deltaSum_map_delta]
    have hex := relRun_flush_exact
      ((List.range m).map (fun i => samplePoint ox oy (m + 1) (i + 1))) ox oy
    rw [hex.1, hex.2]

/-- Claim C1 witness: at the concrete offset `(100, 0)` and duration `1`. -/
theorem c1_relative_displacement_exact_witness :
    deltaSum (smooth_move 0 0 100 0 1 true 0 (fun _ => (0, 0))) = (100, 0) :=
  c1_relative_displacement_exact 0 0 100 0 1 0 (fun _ => (0, 0)) (by norm_num)

/-- Claim C2: in the relative-mode sampling loop of `smooth_move`,
immediately after each sample's injection step the fractional accumulator is
strictly below one in absolute value in each axis, and equivalently the
cumulative injected integer delta differs from the ideal continuous curve
position by less than one unit in each axis. -/
theorem c2_accumulator_bounded (x y : ℤ) (duration : ℝ) (n : ℕ)
    (hn : n < stepsNat duration) :
    |(relRun ((relSamples x y (stepsNat duration)).take (n + 1))).acc_x| < 1 ∧
    |(relRun ((relSamples x y (stepsNat duration)).take (n + 1))).acc_y| < 1 ∧
    |(samplePoint x y (stepsNat duration) (n + 1)).1 -
      (sumX (relRun ((relSamples x y (stepsNat duration)).take (n + 1))).events : ℝ)| < 1 ∧
    |(samplePoint x y (stepsNat duration) (n + 1)).2 -
      (sumY (relRun ((relSamples x y (stepsNat duration)).take (n + 1))).events : ℝ)| < 1 := by
  have htake : (relSamples x y (stepsNat duration)).take (n + 1) =
      (List.range n).map (fun i => samplePoint x y (stepsNat duration) (i + 1)) ++
        [samplePoint x y (stepsNat duration) (n + 1)] := by
    unfold relSamples
    rw [← List.map_take, List.take_range, min_eq_left (by omega), List.range_succ,
      List.map_append]
    simp
  rw [htake, relRun_append_singleton]
  set s := relRun ((List.range n).map (fun i => samplePoint x y (stepsNat duration) (i + 1)))
    with hsdef
  have hb := relStep_abs_acc s (samplePoint x y (stepsNat duration) (n + 1))
  have hI := relStep_relInv s (samplePoint x y (stepsNat duration) (n + 1))
    (relRun_relInv _)
  obtain ⟨hIx, hIy⟩ := hI
  rw [relStep_prev_bx] at hIx
  rw [relStep_prev_by] at hIy
  refine ⟨hb.1, hb.2, ?_, ?_⟩
  · rw [← hIx]; exact hb.1
  · rw [← hIy]; exact hb.2

/-- Claim C2 witness: at offset `(3, 0)`, duration `1`, first sample. -/
theorem c2_accumulator_bounded_witness :
    |(relRun ((relSamples 3 0 (stepsNat 1)).take 1)).acc_x| < 1 ∧
    |(relRun ((relSamples 3 0 (stepsNat 1)).take 1)).acc_y| < 1 ∧
    |(samplePoint 3 0 (stepsNat 1) 1).1 -
      (sumX (relRun ((relSamples 3 0 (stepsNat 1)).take 1)).events : ℝ)| < 1 ∧
    |(samplePoint 3 0 (stepsNat 1) 1).2 -
      (sumY (relRun ((relSamples 3 0 (stepsNat 1)).take 1)).events : ℝ)| < 1 :=
  c2_accumulator_bounded 3 0 1 0
    (lt_of_lt_of_le (by norm_num) (fifteen_le_stepsNat 1))

/-- Claim C5 counterexample: the code computes `steps = max(15, int(duration *
120))` with truncation, not rounding; at `duration = 141/200` (so `duration *
120 = 84.6`) the code yields 84 samples while the claimed formula
`max(15, round(duration * 120))` yields 85. -/
theorem c5_step_count_counterexample :
    stepsOf ((141 : ℝ) / 200) = 84 ∧
    max 15 (pyRound (((141 : ℝ) / 200) * 120)) = 85 := by
  have hval : ((141 : ℝ) / 200) * 120 = 423 / 5 := by norm_num
  have hfloor : ⌊(423 / 5 : ℝ)⌋ = 84 := by
    rw [Int.floor_eq_iff]
    constructor <;> norm_num
  have hfract : Int.fract ((423 : ℝ) / 5) = 3 / 5 := by
    rw [Int.fract, hfloor]
    norm_num
  constructor
  · unfold stepsOf pyTrunc
    rw [hval, if_pos (by norm_num), hfloor]
    decide
  · unfold pyRound
    rw [hval, hfract, if_neg (by norm_num), if_pos (by norm_num), hfloor]
    decide

/-- Claim C5 (amended): `smooth_move` uses `steps = max(15, int(duration *
120))` where `int` truncates toward zero, so for every duration the
relative-mode loop has at least 15 samples, and the sample list has exactly
`steps` entries. -/
theorem c5_step_count (x y : ℤ) (duration : ℝ) :
    stepsOf duration = max 15 (pyTrunc (duration * 120)) ∧
    15 ≤ stepsNat duration ∧
    (relSamples x y (stepsNat duration)).length = stepsNat duration :=
  ⟨rfl, fifteen_le_stepsNat duration, relSamples_length x y _⟩

/-- Claim C6: when the Euclidean distance from start to target is below 2,
`smooth_move` skips curve generation and emits exactly one injection event,
equal to the requested delta in relative mode and to the requested absolute
target in absolute mode. -/
theorem c6_short_path_single_event (start_x start_y x y : ℤ)
    (duration deviation : ℝ) (jitter : ℕ → ℤ × ℤ) (relative : Bool)
    (h : distOf (targetOf start_x x relative - start_x)
      (targetOf start_y y relative - start_y) < 2) :
    smooth_move start_x start_y x y duration relative deviation jitter =
      [if relative = true then MouseEvent.delta x y else MouseEvent.absMove x y] := by
  unfold smooth_move
  rw [if_pos h]
  cases relative
  · simp [targetOf]
  · simp [targetOf]

/-- Claim C6 witness: a relative move by `(1, 0)` (distance 1). -/
theorem c6_short_path_single_event_witness :
    smooth_move 0 0 1 0 1 true 0 (fun _ => (0, 0)) = [MouseEvent.delta 1 0] := by
  have h : distOf (targetOf 0 1 true - 0) (targetOf 0 0 true - 0) < 2 := by
    unfold distOf targetOf
    norm_num [Real.sqrt_one]
  simpa using c6_short_path_single_event 0 0 1 0 1 0 (fun _ => (0, 0)) true h

/-- Claim C7: for every `steps ≥ 1`, the eased parameter sequence
`eased(i/steps)` for `i = 1, …, steps` is non-decreasing, its last value is
exactly 1, and `eased(1/2) = 1/2`. -/
theorem c7_easing_monotone (steps : ℕ) (hs : 1 ≤ steps) :
    (∀ i j : ℕ, 1 ≤ i → i ≤ j → j ≤ steps →
      eased ((i : ℝ) / (steps : ℝ)) ≤ eased ((j : ℝ) / (steps : ℝ))) ∧
    eased ((steps : ℝ) / (steps : ℝ)) = 1 ∧
    eased (1 / 2) = 1 / 2 := by
  have hs0 : (0 : ℝ) < (steps : ℝ) := by exact_mod_cast Nat.lt_of_lt_of_le Nat.zero_lt_one hs
  refine ⟨?_, ?_, ?_⟩
  · intro i j hi hij hj
    unfold eased
    have hcos : Real.cos ((j : ℝ) / (steps : ℝ) * Real.pi) ≤
        Real.cos ((i : ℝ) / (steps : ℝ) * Real.pi) := by
      apply Real.cos_le_cos_of_nonneg_of_le_pi
      · exact mul_nonneg (div_nonneg (Nat.cast_nonneg i) (le_of_lt hs0))
          (le_of_lt Real.pi_pos)
      · have hj1 : (j : ℝ) / (steps : ℝ) ≤ 1 :=
          (div_le_one hs0).mpr (by exact_mod_cast hj)
        calc (j : ℝ) / (steps : ℝ) * Real.pi
            ≤ 1 * Real.pi := by
              exact mul_le_mul_of_nonneg_right hj1 (le_of_lt Real.pi_pos)
          _ = Real.pi := one_mul _
      · exact mul_le_mul_of_nonneg_right
          ((div_le_div_iff_of_pos_right hs0).mpr (by exact_mod_cast hij)) (le_of_lt Real.pi_pos)
    linarith
  · rw [div_self (ne_of_gt hs0), eased_one]
  · unfold eased
    rw [show (1 / 2 : ℝ) * Real.pi = Real.pi / 2 by ring, Real.cos_pi_div_two]
    norm_num

/-- Claim C7 witness: at `steps = 2`. -/
theorem c7_easing_monotone_witness :
    (∀ i j : ℕ, 1 ≤ i → i ≤ j → j ≤ 2 →
      eased ((i : ℝ) / ((2 : ℕ) : ℝ)) ≤ eased ((j : ℝ) / ((2 : ℕ) : ℝ))) ∧
    eased (((2 : ℕ) : ℝ) / ((2 : ℕ) : ℝ)) = 1 ∧
    eased (1 / 2) = 1 / 2 :=
  c7_easing_monotone 2 (by norm_num)

/-- Claim C10: in absolute mode with distance at least 2, `smooth_move`
appends after the loop samples one final absolute move event exactly at the
target, so the last injected position is the requested target regardless of
the intermediate jitter. -/
theorem c10_absolute_final_event (start_x start_y x y : ℤ)
    (duration deviation : ℝ) (jitter : ℕ → ℤ × ℤ)
    (h : ¬ distOf (targetOf start_x x false - start_x)
      (targetOf start_y y false - start_y) < 2) :
    ∃ l : List MouseEvent,
      smooth_move start_x start_y x y duration false deviation jitter =
        l ++ [MouseEvent.absMove x y] ∧ l.length = stepsNat duration := by
  unfold smooth_move
  rw [if_neg h]
  simp only [Bool.false_eq_true, if_false, targetOf]
  exact ⟨_, rfl, by simp⟩

/-- Claim C10 witness: a move to `(100, 0)` from the origin (distance 100). -/
theorem c10_absolute_final_event_witness :
    ∃ l : List MouseEvent,
      smooth_move 0 0 100 0 1 false 0 (fun _ => (0, 0)) =
        l ++ [MouseEvent.absMove 100 0] ∧ l.length = stepsNat 1 := by
  apply c10_absolute_final_event
  unfold distOf targetOf
  simp only [Bool.false_eq_true, if_false, not_lt]
  have h1 : (((100 - 0) * (100 - 0) + (0 - 0) * (0 - 0) : ℤ) : ℝ) = 100 ^ 2 := by
    norm_num
  rw [h1, Real.sqrt_sq (by norm_num : (0 : ℝ) ≤ 100)]
  norm_num

/-- Result of one call to `sleep_interruptible`: the returned boolean, the
value of the last `perf_counter` reading taken before returning, the number
of calls made to the cancellation predicate, and the list of `time.sleep`
durations actually requested. -/
structure SleepOutcome where
  value : Bool
  lastClock : ℚ
  predChecks : ℕ
  sleeps : List ℚ
deriving Repr, DecidableEq

/-- The spin-wait tail of `sleep_interruptible` (lines 40–41 of
`_utils.py`): repeatedly read the clock starting with reading `k` until a
reading is at or past `endT`; returns the index of that reading.  `fuel`
bounds the number of reads (`none` when exhausted). -/
def spinWait (clock : ℕ → ℚ) (endT : ℚ) : ℕ → ℕ → Option ℕ
  | _, 0 => none
  | k, fuel + 1 =>
    if clock k < endT then spinWait clock endT (k + 1) fuel else some k

/-- The polling loop of `sleep_interruptible` (lines 29–45 of `_utils.py`).
`j` is the index of the next predicate call, `k` the index of the next clock
read, `last` the most recent clock reading, `sleeps` the sleeps requested so
far.  Each iteration checks the predicate first; then reads the clock and
either returns (deadline reached), spin-waits the sub-millisecond tail, or
sleeps `min(0.05, remaining - 0.001)` and repeats. -/
def sleepLoop (clock : ℕ → ℚ) (p : ℕ → Bool) (endT : ℚ) :
    ℕ → ℕ → ℕ → ℚ → List ℚ → Option SleepOutcome
  | 0, _, _, _, _ => none
  | fuel + 1, j, k, last, sleeps =>
    if p j = true then
      if endT - clock k ≤ 0 then some ⟨true, clock k, j + 1, sleeps⟩
      else if endT - clock k ≤ 1 / 1000 then
        match spinWait clock endT (k + 1) fuel with
        | some m => some ⟨true, clock m, j + 1, sleeps⟩
        | none => none
      else
        sleepLoop clock p endT fuel (j + 1) (k + 1) (clock k)
          (sleeps ++ [min (1 / 20) (endT - clock k - 1 / 1000)])
    else some ⟨false, last, j + 1, sleeps⟩

/-- Model of `sleep_interruptible(duration, get_active_status)`
(`_utils.py`): the deadline is `clock 0 + duration` (reading 0 is the
`perf_counter()` call that computes `end`), after which the polling loop
runs.  `clock j` is the value returned by the j-th `perf_counter()` call and
`p j` the value returned by the j-th call of the cancellation predicate;
`fuel` bounds the number of loop iterations. -/
def sleep_interruptible (duration : ℚ) (clock : ℕ → ℚ) (p : ℕ → Bool)
    (fuel : ℕ) : Option SleepOutcome :=
  sleepLoop clock p (clock 0 + duration) fuel 0 1 (clock 0) []

lemma spinWait_le (clock : ℕ → ℚ) (endT : ℚ) :
    ∀ fuel k m, spinWait clock endT k fuel = some m → endT ≤ clock m := by
  intro fuel
  induction fuel with
  | zero => intro k m h; simp [spinWait] at h
  | succ fuel ih =>
    intro k m h
    rw [spinWait] at h
    split at h
    · exact ih (k + 1) m h
    · rename_i hge
      obtain rfl : k = m := by injection h
      exact le_of_not_lt hge

/-- If the polling loop returns `true`, the last clock reading it made is at
or past the deadline. -/
lemma sleepLoop_true_le (clock : ℕ → ℚ) (p : ℕ → Bool) (endT : ℚ) :
    ∀ fuel j k last sleeps r,
      sleepLoop clock p endT fuel j k last sleeps = some r →
      r.value = true → endT ≤ r.lastClock := by
  intro fuel
  induction fuel with
  | zero => intro j k last sleeps r h _; simp [sleepLoop] at h
  | succ fuel ih =>
    intro j k last sleeps r h hv
    rw [sleepLoop] at h
    by_cases hp : p j = true
    · rw [if_pos hp] at h
      by_cases h0 : endT - clock k ≤ 0
      · rw [if_pos h0] at h
        obtain rfl : (⟨true, clock k, j + 1, sleeps⟩ : SleepOutcome) = r := by injection h
        show endT ≤ clock k
        linarith
      · rw [if_neg h0] at h
        by_cases h1 : endT - clock k ≤ 1 / 1000
        · rw [if_pos h1] at h
          cases hsw : spinWait clock endT (k + 1) fuel with
          | none => rw [hsw] at h; cases h
          | some m =>
            rw [hsw] at h
            obtain rfl : (⟨true, clock m, j + 1, sleeps⟩ : SleepOutcome) = r := by injection h
            exact spinWait_le clock endT fuel (k + 1) m hsw
        · rw [if_neg h1] at h
          exact ih _ _ _ _ r h hv
    · rw [if_neg hp] at h
      obtain rfl : (⟨false, last, j + 1, sleeps⟩ : SleepOutcome) = r := by injection h
      cases hv

/-- Claim C3: `sleep_interruptible` returns `true` only when the monotonic
clock has reached or passed the deadline `start + duration`; it never
returns `true` early, for any duration, clock behaviour and predicate. -/
theorem c3_never_returns_true_early (duration : ℚ) (clock : ℕ → ℚ)
    (p : ℕ → Bool) (fuel : ℕ) (r : SleepOutcome)
    (h : sleep_interruptible duration clock p fuel = some r)
    (hv : r.value = true) :
    clock 0 + duration ≤ r.lastClock :=
  sleepLoop_true_le clock p (clock 0 + duration) fuel 0 1 (clock 0) [] r h hv

/-- A non-positive duration (with the first predicate check passing and a
monotone first clock step) returns `true` immediately: one predicate check,
one further clock read, no sleeps. -/
lemma sleep_interruptible_nonpos (duration : ℚ) (clock : ℕ → ℚ)
    (p : ℕ → Bool) (fuel : ℕ) (hd : duration ≤ 0) (hp : p 0 = true)
    (hc : clock 0 ≤ clock 1) (hf : 1 ≤ fuel) :
    sleep_interruptible duration clock p fuel =
      some ⟨true, clock 1, 1, []⟩ := by
  obtain ⟨fuel', rfl⟩ : ∃ fuel', fuel = fuel' + 1 := ⟨fuel - 1, by omega⟩
  unfold sleep_interruptible
  rw [sleepLoop, if_pos hp, if_pos (by linarith)]

/-- A first predicate check that fails returns `false` immediately: no
further clock reads, no sleeps. -/
lemma sleep_interruptible_first_false (duration : ℚ) (clock : ℕ → ℚ)
    (p : ℕ → Bool) (fuel : ℕ) (hp : p 0 = false) (hf : 1 ≤ fuel) :
    sleep_interruptible duration clock p fuel =
      some ⟨false, clock 0, 1, []⟩ := by
  obtain ⟨fuel', rfl⟩ : ∃ fuel', fuel = fuel' + 1 := ⟨fuel - 1, by omega⟩
  unfold sleep_interruptible
  rw [sleepLoop, if_neg (by simp [hp])]

/-- Claim C3 witness: duration 0 with a constant clock; the loop returns
`true` at once and the deadline is (weakly) passed. -/
theorem c3_never_returns_true_early_witness :
    ((fun _ : ℕ => (0 : ℚ)) 0) + 0 ≤ (0 : ℚ) :=
  c3_never_returns_true_early 0 (fun _ => (0 : ℚ)) (fun _ => true) 1
    ⟨true, 0, 1, []⟩
    (sleep_interruptible_nonpos 0 (fun _ => (0 : ℚ)) (fun _ => true) 1
      (le_refl 0) rfl (le_refl _) (le_refl 1)) rfl

/-- Characterization of one run of the polling loop, generalized over the
loop-carried accumulators: the loop makes `n + 1` predicate calls beyond the
`j` already made, performs one sleep per non-final iteration, every
non-final check returns `true`, and the final check determines the result. -/
lemma sleepLoop_spec (clock : ℕ → ℚ) (p : ℕ → Bool) (endT : ℚ) :
    ∀ fuel j k last sleeps r,
      sleepLoop clock p endT fuel j k last sleeps = some r →
      ∃ n, r.predChecks = j + n + 1 ∧
        r.sleeps.length = sleeps.length + n ∧
        (∀ i, j ≤ i → i + 1 < r.predChecks → p i = true) ∧
        (r.value = true → p (r.predChecks - 1) = true) ∧
        (r.value = false → p (r.predChecks - 1) = false) := by
  intro fuel
  induction fuel with
  | zero => intro j k last sleeps r h; simp [sleepLoop] at h
  | succ fuel ih =>
    intro j k last sleeps r h
    rw [sleepLoop] at h
    by_cases hp : p j = true
    · rw [if_pos hp] at h
      by_cases h0 : endT - clock k ≤ 0
      · rw [if_pos h0] at h
        obtain rfl : (⟨true, clock k, j + 1, sleeps⟩ : SleepOutcome) = r := by injection h
        exact ⟨0, rfl, rfl, fun i hji hi => absurd hi (by simp; omega),
          fun _ => by simpa using hp, fun hf => by cases hf⟩
      · rw [if_neg h0] at h
        by_cases h1 : endT - clock k ≤ 1 / 1000
        · rw [if_pos h1] at h
          cases hsw : spinWait clock endT (k + 1) fuel with
          | none => rw [hsw] at h; cases h
          | some m =>
            rw [hsw] at h
            obtain rfl : (⟨true, clock m, j + 1, sleeps⟩ : SleepOutcome) = r := by injection h
            exact ⟨0, rfl, rfl, fun i hji hi => absurd hi (by simp; omega),
              fun _ => by simpa using hp, fun hf => by cases hf⟩
        · rw [if_neg h1] at h
          obtain ⟨n, h1n, h2n, h3n, h4n, h5n⟩ := ih _ _ _ _ r h
          refine ⟨n + 1, by omega, ?_, ?_, h4n, h5n⟩
          · simp only [List.length_append, List.length_singleton] at h2n
            omega
          · intro i hji hi
            rcases Nat.eq_or_lt_of_le hji with rfl | hlt
            · simpa using hp
            · exact h3n i hlt hi
    · rw [if_neg hp] at h
      obtain rfl : (⟨false, last, j + 1, sleeps⟩ : SleepOutcome) = r := by injection h
      refine ⟨0, rfl, rfl, ?_, ?_, ?_⟩
      · intro i hji hi
        exact absurd hi (by simp; omega)
      · intro ht
        exact Bool.noConfusion ht
      · intro _
        show p (j + 1 - 1) = false
        rw [Nat.add_sub_cancel]
        revert hp
        cases p j <;> simp

/-- Claim C4: `sleep_interruptible` checks the cancellation predicate first
on every iteration — at least one check happens, and there is exactly one
sleep per iteration after its check, so no sleep precedes a check.  The call
returns `true` exactly when every predicate check returned `true`, and when
it returns `false` the last check is the one that returned `false`. -/
theorem c4_predicate_checked_first (duration : ℚ) (clock : ℕ → ℚ)
    (p : ℕ → Bool) (fuel : ℕ) (r : SleepOutcome)
    (h : sleep_interruptible duration clock p fuel = some r) :
    1 ≤ r.predChecks ∧
    r.sleeps.length + 1 = r.predChecks ∧
    (r.value = true ↔ ∀ i, i < r.predChecks → p i = true) ∧
    (r.value = false → p (r.predChecks - 1) = false) := by
  obtain ⟨n, h1, h2, h3, h4, h5⟩ :=
    sleepLoop_spec clock p (clock 0 + duration) fuel 0 1 (clock 0) [] r h
  simp only [List.length_nil, zero_add] at h2
  refine ⟨by omega, by omega, ⟨?_, ?_⟩, h5⟩
  · intro hv i hi
    rcases Nat.lt_or_ge (i + 1) r.predChecks with hlt | hge
    · exact h3 i (Nat.zero_le i) hlt
    · have hieq : i = r.predChecks - 1 := by omega
      rw [hieq]
      exact h4 hv
  · intro hall
    cases hrv : r.value with
    | true => rfl
    | false =>
      have hfalse := h5 hrv
      have htrue := hall (r.predChecks - 1) (by omega)
      rw [htrue] at hfalse
      cases hfalse

/-- Claim C4 witness: duration 0 with a constant clock and an always-true
predicate — one check, no sleeps, returns `true`. -/
theorem c4_predicate_checked_first_witness :
    1 ≤ (⟨true, 0, 1, []⟩ : SleepOutcome).predChecks ∧
    (⟨true, 0, 1, []⟩ : SleepOutcome).sleeps.length + 1 =
      (⟨true, 0, 1, []⟩ : SleepOutcome).predChecks ∧
    ((⟨true, 0, 1, []⟩ : SleepOutcome).value = true ↔
      ∀ i, i < (⟨true, 0, 1, []⟩ : SleepOutcome).predChecks →
        (fun _ : ℕ => true) i = true) ∧
    ((⟨true, 0, 1, []⟩ : SleepOutcome).value = false →
      (fun _ : ℕ => true) ((⟨true, 0, 1, []⟩ : SleepOutcome).predChecks - 1) = false) :=
  c4_predicate_checked_first 0 (fun _ => (0 : ℚ)) (fun _ => true) 2
    ⟨true, 0, 1, []⟩
    (sleep_interruptible_nonpos 0 (fun _ => (0 : ℚ)) (fun _ => true) 2
      (le_refl 0) rfl (le_refl _) (by norm_num))

/-- Claim C8 counterexample: at `duration = 0` with a predicate that is
already `false`, `sleep_interruptible` returns `false`, not `true` — the
cancellation check takes priority even for non-positive durations, so the
claim as stated (always returns `true` immediately) is false. -/
theorem c8_counterexample :
    ¬ (∀ r : SleepOutcome,
        sleep_interruptible 0 (fun _ => (0 : ℚ)) (fun _ => false) 2 = some r →
        r.value = true) := by
  intro hclaim
  have h := hclaim ⟨false, 0, 1, []⟩
    (sleep_interruptible_first_false 0 (fun _ => (0 : ℚ)) (fun _ => false) 2
      rfl (by norm_num))
  cases h

/-- Claim C8 (amended): for every `duration ≤ 0`, `sleep_interruptible`
performs no sleep and returns immediately after the first predicate check,
returning `true` (the duration is treated as already elapsed) whenever that
first check passes; a first check that signals stop still returns `false`. -/
theorem c8_nonpositive_duration_immediate (duration : ℚ) (clock : ℕ → ℚ)
    (p : ℕ → Bool) (fuel : ℕ) (hd : duration ≤ 0) (hp : p 0 = true)
    (hc : clock 0 ≤ clock 1) (hf : 1 ≤ fuel) :
    sleep_interruptible duration clock p fuel =
      some ⟨true, clock 1, 1, []⟩ :=
  sleep_interruptible_nonpos duration clock p fuel hd hp hc hf

/-- Claim C8 witness: duration `-1`, constant clock, always-true predicate. -/
theorem c8_nonpositive_duration_immediate_witness :
    sleep_interruptible (-1) (fun _ => (0 : ℚ)) (fun _ => true) 3 =
      some ⟨true, 0, 1, []⟩ :=
  c8_nonpositive_duration_immediate (-1) (fun _ => (0 : ℚ)) (fun _ => true) 3
    (by norm_num) rfl (le_refl _) (by norm_num)

/-- A synthetic keyboard/mouse-button event injected by the input layer. -/
inductive InEvent where
  | keyDown (code : ℤ)
  | keyUp (code : ℤ)
  | leftDown
  | leftUp
  | rightDown
  | rightUp
deriving Repr, DecidableEq

/-- The process-wide held-input state of `_input_api.py`: `_held_keys`
(line 353), `_left_click_held` and `_right_click_held` (lines 109–110). -/
structure InputState where
  heldKeys : Finset ℤ
  leftHeld : Bool
  rightHeld : Bool
deriving DecidableEq

/-- The state at module load: nothing held. -/
def initState : InputState := ⟨∅, false, false⟩

/-- `press(key, hold)` (lines 411–431 of `_input_api.py`), on the resolved
virtual-key code: with `hold=True` it injects a key-down and records the key
only when not already held; otherwise it taps (down then up) without
touching the held set. -/
def press (s : InputState) (code : ℤ) (hold : Bool) : InputState × List InEvent :=
  if hold = true then
    if code ∈ s.heldKeys then (s, [])
    else ({ s with heldKeys := insert code s.heldKeys }, [InEvent.keyDown code])
  else (s, [InEvent.keyDown code, InEvent.keyUp code])

/-- `release(key)` (lines 434–443 of `_input_api.py`): injects a key-up and
removes the key only when it is currently held. -/
def release (s : InputState) (code : ℤ) : InputState × List InEvent :=
  if code ∈ s.heldKeys then
    ({ s with heldKeys := s.heldKeys.erase code }, [InEvent.keyUp code])
  else (s, [])

/-- `left_click(hold)` (lines 113–123 of `_input_api.py`). -/
def left_click (s : InputState) (hold : Bool) : InputState × List InEvent :=
  if hold = true then
    if s.leftHeld = true then (s, [])
    else ({ s with leftHeld := true }, [InEvent.leftDown])
  else (s, [InEvent.leftDown, InEvent.leftUp])

/-- `release_left_click()` (lines 126–131 of `_input_api.py`). -/
def release_left_click (s : InputState) : InputState × List InEvent :=
  if s.leftHeld = true then ({ s with leftHeld := false }, [InEvent.leftUp])
  else (s, [])

/-- `right_click(hold)` (lines 134–144 of `_input_api.py`). -/
def right_click (s : InputState) (hold : Bool) : InputState × List InEvent :=
  if hold = true then
    if s.rightHeld = true then (s, [])
    else ({ s with rightHeld := true }, [InEvent.rightDown])
  else (s, [InEvent.rightDown, InEvent.rightUp])

/-- `release_right_click()` (lines 147–152 of `_input_api.py`). -/
def release_right_click (s : InputState) : InputState × List InEvent :=
  if s.rightHeld = true then ({ s with rightHeld := false }, [InEvent.rightUp])
  else (s, [])

/-- The `for key_code in list(_held_keys): release(key_code)` loop of
`release_all` (lines 448–449 of `_input_api.py`). -/
def releaseKeysFold (s : InputState) (l : List ℤ) : InputState × List InEvent :=
  l.foldl (fun acc c => ((release acc.1 c).1, acc.2 ++ (release acc.1 c).2)) (s, [])

/-- `release_all()` (lines 446–451 of `_input_api.py`): release every held
key, then the left click, then the right click. -/
noncomputable def release_all (s : InputState) : InputState × List InEvent :=
  match releaseKeysFold s s.heldKeys.toList with
  | (s1, e1) =>
    match release_left_click s1 with
    | (s2, e2) =>
      match release_right_click s2 with
      | (s3, e3) => (s3, e1 ++ e2 ++ e3)

/-- One public operation on the held-input state. -/
inductive Op where
  | press (code : ℤ) (hold : Bool)
  | release (code : ℤ)
  | leftClick (hold : Bool)
  | rightClick (hold : Bool)
  | releaseLeft
  | releaseRight
  | releaseAll
deriving Repr, DecidableEq

/-- Dispatch one operation against the held-input state. -/
noncomputable def run (s : InputState) (op : Op) : InputState × List InEvent :=
  match op with
  | Op.press c h => press s c h
  | Op.release c => release s c
  | Op.leftClick h => left_click s h
  | Op.rightClick h => right_click s h
  | Op.releaseLeft => release_left_click s
  | Op.releaseRight => release_right_click s
  | Op.releaseAll => release_all s

/-- Run a sequence of operations, keeping only the final state. -/
noncomputable def runTrace (s : InputState) (ops : List Op) : InputState :=
  ops.foldl (fun s op => (run s op).1) s

/-- Specification-side step for the held-key set, following the claim's
words: a key is held exactly when it was pressed with `hold=True` and not
yet released (individually or by `release_all`). -/
def heldStep (op : Op) (f : Finset ℤ) : Finset ℤ :=
  match op with
  | Op.press c h => if h = true then insert c f else f
  | Op.release c => f.erase c
  | Op.releaseAll => ∅
  | _ => f

/-- Specification-side held-key set after a trace of operations from the
initial (empty) state. -/
def heldSpec (ops : List Op) : Finset ℤ :=
  ops.foldl (fun f op => heldStep op f) ∅

/-- Specification-side step for the left-click-held flag. -/
def leftStep (op : Op) (b : Bool) : Bool :=
  match op with
  | Op.leftClick h => if h = true then true else b
  | Op.releaseLeft => false
  | Op.releaseAll => false
  | _ => b

/-- Specification-side left-click-held flag after a trace from the initial
state. -/
def leftSpec (ops : List Op) : Bool :=
  ops.foldl (fun b op => leftStep op b) false

/-- Specification-side step for the right-click-held flag. -/
def rightStep (op : Op) (b : Bool) : Bool :=
  match op with
  | Op.rightClick h => if h = true then true else b
  | Op.releaseRight => false
  | Op.releaseAll => false
  | _ => b

/-- Specification-side right-click-held flag after a trace from the initial
state. -/
def rightSpec (ops : List Op) : Bool :=
  ops.foldl (fun b op => rightStep op b) false

lemma release_fst_heldKeys (s : InputState) (c : ℤ) :
    (release s c).1.heldKeys = s.heldKeys.erase c := by
  unfold release
  split
  · rfl
  · rename_i h
    exact (Finset.erase_eq_of_not_mem h).symm

lemma release_fst_flags (s : InputState) (c : ℤ) :
    (release s c).1.leftHeld = s.leftHeld ∧ (release s c).1.rightHeld = s.rightHeld := by
  unfold release
  split <;> exact ⟨rfl, rfl⟩

lemma releaseKeysFold_state (l : List ℤ) :
    ∀ s : InputState,
      (releaseKeysFold s l).1.heldKeys = l.foldl (fun f c => f.erase c) s.heldKeys ∧
      (releaseKeysFold s l).1.leftHeld = s.leftHeld ∧
      (releaseKeysFold s l).1.rightHeld = s.rightHeld := by
  have haux : ∀ (l : List ℤ) (a : InputState × List InEvent),
      (l.foldl (fun acc c => ((release acc.1 c).1, acc.2 ++ (release acc.1 c).2)) a).1.heldKeys
        = l.foldl (fun f c => f.erase c) a.1.heldKeys ∧
      (l.foldl (fun acc c => ((release acc.1 c).1, acc.2 ++ (release acc.1 c).2)) a).1.leftHeld
        = a.1.leftHeld ∧
      (l.foldl (fun acc c => ((release acc.1 c).1, acc.2 ++ (release acc.1 c).2)) a).1.rightHeld
        = a.1.rightHeld := by
    intro l
    induction l with
    | nil => intro a; exact ⟨rfl, rfl, rfl⟩
    | cons c l ih =>
      intro a
      obtain ⟨h1, h2, h3⟩ := ih ((release a.1 c).1, a.2 ++ (release a.1 c).2)
      refine ⟨?_, ?_, ?_⟩
      · rw [List.foldl_cons, h1, release_fst_heldKeys, List.foldl_cons]
      · rw [List.foldl_cons, h2, (release_fst_flags a.1 c).1]
      · rw [List.foldl_cons, h3, (release_fst_flags a.1 c).2]
  intro s
  exact haux l (s, [])

lemma foldl_erase_of_subset (l : List ℤ) :
    ∀ f : Finset ℤ, (∀ a ∈ f, a ∈ l) → l.foldl (fun g c => g.erase c) f = ∅ := by
  induction l with
  | nil =>
    intro f hf
    simp only [List.foldl_nil]
    exact Finset.eq_empty_iff_forall_not_mem.mpr (fun a ha => by simpa using hf a ha)
  | cons c l ih =>
    intro f hf
    rw [List.foldl_cons]
    apply ih
    intro a ha
    rw [Finset.mem_erase] at ha
    rcases List.mem_cons.mp (hf a ha.2) with h | h
    · exact absurd h ha.1
    · exact h

lemma release_left_click_parts (s : InputState) :
    (release_left_click s).1.heldKeys = s.heldKeys ∧
    (release_left_click s).1.leftHeld = false ∧
    (release_left_click s).1.rightHeld = s.rightHeld := by
  unfold release_left_click
  split
  · exact ⟨rfl, rfl, rfl⟩
  · rename_i hb
    refine ⟨rfl, ?_, rfl⟩
    revert hb
    cases s.leftHeld <;> simp

lemma release_right_click_parts (s : InputState) :
    (release_right_click s).1.heldKeys = s.heldKeys ∧
    (release_right_click s).1.leftHeld = s.leftHeld ∧
    (release_right_click s).1.rightHeld = false := by
  unfold release_right_click
  split
  · exact ⟨rfl, rfl, rfl⟩
  · rename_i hb
    refine ⟨rfl, rfl, ?_⟩
    revert hb
    cases s.rightHeld <;> simp

lemma release_all_fst (s : InputState) :
    (release_all s).1 =
      (release_right_click
        (release_left_click (releaseKeysFold s s.heldKeys.toList).1).1).1 := by
  unfold release_all
  rcases hf : releaseKeysFold s s.heldKeys.toList with ⟨s1, e1⟩
  rcases hl : release_left_click s1 with ⟨s2, e2⟩
  rcases hr : release_right_click s2 with ⟨s3, e3⟩
  simp [hf, hl, hr]

lemma release_all_state (s : InputState) :
    (release_all s).1.heldKeys = ∅ ∧
    (release_all s).1.leftHeld = false ∧
    (release_all s).1.rightHeld = false := by
  obtain ⟨h1, h2, h3⟩ := releaseKeysFold_state s.heldKeys.toList s
  have hempty : (releaseKeysFold s s.heldKeys.toList).1.heldKeys = ∅ := by
    rw [h1]
    exact foldl_erase_of_subset _ _ (fun a ha => Finset.mem_toList.mpr ha)
  rw [release_all_fst]
  obtain ⟨hl1, hl2, hl3⟩ :=
    release_left_click_parts (releaseKeysFold s s.heldKeys.toList).1
  obtain ⟨hr1, hr2, hr3⟩ :=
    release_right_click_parts
      (release_left_click (releaseKeysFold s s.heldKeys.toList).1).1
  refine ⟨?_, ?_, hr3⟩
  · rw [hr1, hl1, hempty]
  · rw [hr2, hl2]

lemma run_heldKeys (s : InputState) (op : Op) :
    (run s op).1.heldKeys = heldStep op s.heldKeys := by
  cases op with
  | press c h =>
    show (press s c h).1.heldKeys = if h = true then insert c s.heldKeys else s.heldKeys
    unfold press
    by_cases hh : h = true
    · rw [if_pos hh, if_pos hh]
      split
      · rename_i hmem
        exact (Finset.insert_eq_self.mpr hmem).symm
      · rfl
    · rw [if_neg hh, if_neg hh]
  | release c =>
    exact release_fst_heldKeys s c
  | leftClick h =>
    show (left_click s h).1.heldKeys = s.heldKeys
    unfold left_click
    split
    · split <;> rfl
    · rfl
  | rightClick h =>
    show (right_click s h).1.heldKeys = s.heldKeys
    unfold right_click
    split
    · split <;> rfl
    · rfl
  | releaseLeft =>
    exact (release_left_click_parts s).1
  | releaseRight =>
    exact (release_right_click_parts s).1
  | releaseAll =>
    exact (release_all_state s).1

lemma run_leftHeld (s : InputState) (op : Op) :
    (run s op).1.leftHeld = leftStep op s.leftHeld := by
  cases op with
  | press c h =>
    show (press s c h).1.leftHeld = s.leftHeld
    unfold press
    split
    · split <;> rfl
    · rfl
  | release c => exact (release_fst_flags s c).1
  | leftClick h =>
    show (left_click s h).1.leftHeld = if h = true then true else s.leftHeld
    unfold left_click
    by_cases hh : h = true
    · rw [if_pos hh, if_pos hh]
      split
      · rename_i hb; exact hb
      · rfl
    · rw [if_neg hh, if_neg hh]
  | rightClick h =>
    show (right_click s h).1.leftHeld = s.leftHeld
    unfold right_click
    split
    · split <;> rfl
    · rfl
  | releaseLeft =>
    exact (release_left_click_parts s).2.1
  | releaseRight =>
    exact (release_right_click_parts s).2.1
  | releaseAll =>
    exact (release_all_state s).2.1

lemma run_rightHeld (s : InputState) (op : Op) :
    (run s op).1.rightHeld = rightStep op s.rightHeld := by
  cases op with
  | press c h =>
    show (press s c h).1.rightHeld = s.rightHeld
    unfold press
    split
    · split <;> rfl
    · rfl
  | release c => exact (release_fst_flags s c).2
  | leftClick h =>
    show (left_click s h).1.rightHeld = s.rightHeld
    unfold left_click
    split
    · split <;> rfl
    · rfl
  | rightClick h =>
    show (right_click s h).1.rightHeld = if h = true then true else s.rightHeld
    unfold right_click
    by_cases hh : h = true
    · rw [if_pos hh, if_pos hh]
      split
      · rename_i hb; exact hb
      · rfl
    · rw [if_neg hh, if_neg hh]
  | releaseLeft =>
    exact (release_left_click_parts s).2.2
  | releaseRight =>
    exact (release_right_click_parts s).2.2
  | releaseAll =>
    exact (release_all_state s).2.2

lemma runTrace_state (ops : List Op) :
    ∀ s : InputState,
      (runTrace s ops).heldKeys = ops.foldl (fun f op => heldStep op f) s.heldKeys ∧
      (runTrace s ops).leftHeld = ops.foldl (fun b op => leftStep op b) s.leftHeld ∧
      (runTrace s ops).rightHeld = ops.foldl (fun b op => rightStep op b) s.rightHeld := by
  induction ops with
  | nil => intro s; exact ⟨rfl, rfl, rfl⟩
  | cons op ops ih =>
    intro s
    obtain ⟨h1, h2, h3⟩ := ih (run s op).1
    have hrt : runTrace s (op :: ops) = runTrace (run s op).1 ops := by
      simp [runTrace]
    refine ⟨?_, ?_, ?_⟩
    · rw [hrt, h1, run_heldKeys, List.foldl_cons]
    · rw [hrt, h2, run_leftHeld, List.foldl_cons]
    · rw [hrt, h3, run_rightHeld, List.foldl_cons]

/-- Claim C9: the held-input state tracks exactly the keys and buttons
pressed with `hold=True` and not yet released — along any trace the concrete
state agrees with the specification-side fold; `press(key, hold=True)` on an
already-held key injects nothing and leaves the state unchanged;
`release(key)` on a non-held key injects nothing; and after `release_all()`
the held-key set is empty and both click-held flags are `false`. -/
theorem c9_held_state_exact (ops : List Op) (s s2 s3 : InputState) (c c2 : ℤ)
    (h1 : c ∈ s.heldKeys) (h2 : c2 ∉ s2.heldKeys) :
    (runTrace initState ops).heldKeys = heldSpec ops ∧
    (runTrace initState ops).leftHeld = leftSpec ops ∧
    (runTrace initState ops).rightHeld = rightSpec ops ∧
    press s c true = (s, []) ∧
    release s2 c2 = (s2, []) ∧
    (release_all s3).1.heldKeys = ∅ ∧
    (release_all s3).1.leftHeld = false ∧
    (release_all s3).1.rightHeld = false := by
  obtain ⟨ht1, ht2, ht3⟩ := runTrace_state ops initState
  obtain ⟨ha1, ha2, ha3⟩ := release_all_state s3
  refine ⟨ht1, ht2, ht3, ?_, ?_, ha1, ha2, ha3⟩
  · unfold press
    rw [if_pos rfl, if_pos h1]
  · unfold release
    rw [if_neg h2]

/-- Claim C9 witness: a concrete trace (hold `5`, release it, hold the left
button) and concrete states for the no-op and `release_all` clauses. -/
theorem c9_held_state_exact_witness :
    (runTrace initState [Op.press 5 true, Op.release 5, Op.leftClick true]).heldKeys
      = heldSpec [Op.press 5 true, Op.release 5, Op.leftClick true] ∧
    (runTrace initState [Op.press 5 true, Op.release 5, Op.leftClick true]).leftHeld
      = leftSpec [Op.press 5 true, Op.release 5, Op.leftClick true] ∧
    (runTrace initState [Op.press 5 true, Op.release 5, Op.leftClick true]).rightHeld
      = rightSpec [Op.press 5 true, Op.release 5, Op.leftClick true] ∧
    press ⟨{5}, false, false⟩ 5 true = (⟨{5}, false, false⟩, []) ∧
    release ⟨∅, false, false⟩ 7 = (⟨∅, false, false⟩, []) ∧
    (release_all ⟨{3, 4}, true, true⟩).1.heldKeys = ∅ ∧
    (release_all ⟨{3, 4}, true, true⟩).1.leftHeld = false ∧
    (release_all ⟨{3, 4}, true, true⟩).1.rightHeld = false :=
  c9_held_state_exact [Op.press 5 true, Op.release 5, Op.leftClick true]
    ⟨{5}, false, false⟩ ⟨∅, false, false⟩ ⟨{3, 4}, true, true⟩ 5 7
    (by decide) (by decide)

end Urmacro
